import Mathlib

/-!
# geo-api-benchmark: outcome ledger and latency statistics

A shallow embedding of `main.go`.

* `[]float64` latencies are lists of rationals: every finite `float64` is a rational and the
  order used by `sort.Float64s` agrees with the order of the rationals on them.
* `int(float64(len(numbers)) * 0.99)` is modelled bit-exactly: conversion and product are
  rounded to 53 significant bits, ties to even, and the result is truncated.
* `int64` counters are integers that wrap around at `2 ^ 63`.
* A Go runtime panic is the `error` side of `Except Panic`.
* The goroutines of the pool update the ledger only through atomic adds and mutex-guarded
  appends; a run is modelled as the units executed one after another.
-/

set_option linter.unusedVariables false

namespace GeoApiBenchmark

/-- Runtime panics that the modelled code can raise. -/
inductive Panic where
  | nilPointerDereference
  | indexOutOfRange
  | intnInvalidArgument
  deriving DecidableEq, Repr

/-! ## float64 arithmetic used by `calculateP` -/

/-- Number of low bits to drop from `N` so that at most 53 significant bits remain
(`fuel` bounds the number of halvings; `fuel = N` always suffices). -/
def dropBits : Nat → Nat → Nat
  | 0, _ => 0
  | fuel + 1, N => if N < 2 ^ 53 then 0 else dropBits fuel (N / 2) + 1

/-- Round the natural number `N` to 53 significant bits, round-half-to-even: the value of the
nearest `float64`. Rounding commutes with scaling by powers of two, so the same function
rounds any dyadic `N / 2 ^ k`. -/
def roundTo53 (N : Nat) : Nat :=
  let s := dropBits N N
  let q := N / 2 ^ s
  let r := N % 2 ^ s
  if 2 ^ s < 2 * r ∨ (2 * r = 2 ^ s ∧ q % 2 = 1) then (q + 1) * 2 ^ s else q * 2 ^ s

/-- The `float64` literal `0.99` is `mant099 / 2 ^ 53`. -/
def mant099 : Nat := 8917127262193582

/-- The value of `int(float64(n) * 0.99)`: `float64(n)` is `roundTo53 n`, the product is
`roundTo53 (float64(n) * mant099) / 2 ^ 53`, and `int` truncates. -/
def index99 (n : Nat) : Nat := roundTo53 (roundTo53 n * mant099) / 2 ^ 53

/-! ## Statistics -/

/-- The effect of `sort.Float64s` on a slice without NaN: the ascending rearrangement. -/
def sortFloat64s (numbers : List ℚ) : List ℚ := numbers.insertionSort (· ≤ ·)

/-- Slice indexing `numbers[i]`, which panics when `i` is out of range. -/
def indexSlice (numbers : List ℚ) (i : Nat) : Except Panic ℚ :=
  match numbers[i]? with
  | some v => .ok v
  | none => .error .indexOutOfRange

/-- Float division `a / b`; `none` stands for the non-finite result (NaN or an infinity) of a
division by zero, which has no rational value. -/
def float64Div (a b : ℚ) : Option ℚ := if b = 0 then none else some (a / b)

/-- The function `mean` of `main.go`. Rounding of the running sum is not modelled. -/
def mean (numbers : List ℚ) : Option ℚ :=
  if numbers.length = 0 then some 0
  else
    let total := numbers.foldl (fun total v => total + v) 0
    float64Div total numbers.length

/-- The function `calculateP` of `main.go`. The slice is sorted in place, so the result carries
the contents of `numbers` after the call next to the returned value. The parameter `rate` is
not read by the body: the index is always computed with the literal `0.99`. -/
def calculateP (numbers : List ℚ) (rate : ℚ) : Except Panic (ℚ × List ℚ) :=
  if numbers.length = 0 then .ok (0, numbers)
  else
    let numbers := sortFloat64s numbers
    let index := index99 numbers.length
    if index = 0 then
      (indexSlice numbers 0).map (fun v => (v, numbers))
    else
      (indexSlice numbers (index - 1)).map (fun v => (v, numbers))

/-- The part of `ReportLatencyHistogram` that computes numbers: `calculateP(latency, 0.99)`,
then `calculateP(latency, 0.95)` on the slice as the first call left it, then `mean`. The
result is `(p99, p95, mean)` before formatting; the histogram and the printed text, produced
by external libraries, are left out. -/
def ReportLatencyHistogram (latency : List ℚ) : Except Panic (ℚ × ℚ × Option ℚ) :=
  match calculateP latency (99 / 100) with
  | .error e => .error e
  | .ok (p99, latency) =>
    match calculateP latency (95 / 100) with
    | .error e => .error e
    | .ok (p95, latency) => .ok (p99, p95, mean latency)

/-! ## The outcome ledger -/

/-- Two's-complement wrap-around of an integer into the `int64` range. -/
def wrapInt64 (x : Int) : Int := (x + 2 ^ 63) % 2 ^ 64 - 2 ^ 63

/-- The new value stored by `atomic.AddInt64(addr, delta)`. -/
def atomicAddInt64 (x delta : Int) : Int := wrapInt64 (x + delta)

/-- Largest `int64`. -/
def maxInt64 : Int := 2 ^ 63 - 1

/-- The package-level variables written by `Req`. `failedStatusCode` is the
`map[int]*int64`: `none` is a missing key, whose lookup yields the nil pointer. -/
structure Ledger where
  ok : Int
  failed : Int
  reqFailed : Int
  failedStatusCode : Int → Option Int
  oklatency : List ℚ
  failedlatency : List ℚ
  reqfailedlatency : List ℚ

/-- The ledger as initialised at program start: counters zero, buckets empty, and a zeroed
counter allocated for each key `0 ≤ i < 600`. -/
def emptyLedger : Ledger where
  ok := 0
  failed := 0
  reqFailed := 0
  failedStatusCode := fun i => if 0 ≤ i ∧ i < 600 then some 0 else none
  oklatency := []
  failedlatency := []
  reqfailedlatency := []

/-- What `http.DefaultClient.Do` hands back: an error, or a response with a status code. -/
inductive DoResult where
  | err
  | resp (StatusCode : Int)
  deriving DecidableEq, Repr

/-- The recording part of `Req`: everything after `duration` has been measured. URL
construction and the HTTP exchange are external; their result and the measured duration are
the parameters. -/
def Req (L : Ledger) (r : DoResult) (duration : ℚ) : Except Panic Ledger :=
  match r with
  | .err =>
    .ok { L with
      reqFailed := atomicAddInt64 L.reqFailed 1
      reqfailedlatency := L.reqfailedlatency ++ [duration] }
  | .resp code =>
    if code ≠ 200 then
      let failed := atomicAddInt64 L.failed 1
      match L.failedStatusCode code with
      | none => .error .nilPointerDereference
      | some count =>
        .ok { L with
          failed := failed
          failedStatusCode := Function.update L.failedStatusCode code (some (atomicAddInt64 count 1))
          failedlatency := L.failedlatency ++ [duration] }
    else
      .ok { L with
        ok := atomicAddInt64 L.ok 1
        oklatency := L.oklatency ++ [duration] }

/-- The recording step of `Req` applied once per request result, in sequence. -/
def ReqAll (L : Ledger) : List (DoResult × ℚ) → Except Panic Ledger
  | [] => .ok L
  | (r, duration) :: rest =>
    match Req L r duration with
    | .error e => .error e
    | .ok L1 => ReqAll L1 rest

/-- An `int64` value that the next increment does not wrap: any `int64` but the largest. -/
def Int64BelowMax (x : Int) : Prop := -(2 ^ 63) ≤ x ∧ x < maxInt64

/-- The ledger states in which a request can be recorded: the map holds the keys allocated at
program start (`Req` never adds or removes a key), and no counter has reached the largest
`int64`, which takes `2 ^ 63 - 1` recorded requests. -/
structure Ledger.Recordable (L : Ledger) : Prop where
  ok : Int64BelowMax L.ok
  failed : Int64BelowMax L.failed
  reqFailed : Int64BelowMax L.reqFailed
  allocated : ∀ i : Int, 0 ≤ i → i < 600 → ∃ count, L.failedStatusCode i = some count
  counts : ∀ (i : Int) (count : Int), L.failedStatusCode i = some count → Int64BelowMax count

/-! ## Startup and dispatch -/

/-- The fields of `gocitiesjson.City` that the program reads. -/
structure City where
  Country : String
  Lat : String
  Lng : String
  deriving DecidableEq, Repr

/-- The function `prepare` of `main.go`: the value it leaves in `cities`, from the dataset
`Cities` and the flag `countryCode`. It has no failing path. -/
def prepare (Cities : List City) (countryCode : String) : List City :=
  if countryCode ≠ "" then Cities.filter (fun city => city.Country = countryCode)
  else Cities

/-- The call `rand.Intn(n)` for `n = len(cities)`: it panics when `n` is not positive, and
otherwise yields a number below `n`, here derived from the raw draw `raw`. -/
def randIntn (n raw : Nat) : Except Panic Nat :=
  if n = 0 then .error .intnInvalidArgument else .ok (raw % n)

/-- What the outside world supplies to one dispatched unit: the raw random draw, the result
of the HTTP exchange and the measured duration. -/
structure UnitEvents where
  raw : Nat
  result : DoResult
  duration : ℚ

/-- One unit of work submitted by `RunConcPool`: draw a city, then `Req`. -/
def runUnit (cities : List City) (L : Ledger) (e : UnitEvents) : Except Panic Ledger :=
  match randIntn cities.length e.raw with
  | .error p => .error p
  | .ok i =>
    match cities[i]? with
    | none => .error .indexOutOfRange
    | some _ => Req L e.result e.duration

/-- The loop of `RunConcPool` from unit `i` on, with `todo` units left. -/
def runUnits (cities : List City) (events : Nat → UnitEvents) :
    Nat → Nat → Ledger → Except Panic Ledger
  | _, 0, L => .ok L
  | i, todo + 1, L =>
    match runUnit cities L (events i) with
    | .error p => .error p
    | .ok L1 => runUnits cities events (i + 1) todo L1

/-- The function `RunConcPool` of `main.go`: `runs` units (none when `runs ≤ 0`), then the
wait; a panic raised in a unit is what the wait re-raises. -/
def RunConcPool (cities : List City) (runs : Int) (events : Nat → UnitEvents)
    (L : Ledger) : Except Panic Ledger :=
  runUnits cities events 0 runs.toNat L

/-! ## The percentile as the specification words it -/

/-- Nearest-rank percentile in the words of the specification: sort ascending,
`index = floor(count × p)`, the minimum when `index = 0`, else the element at `index - 1`.
The default `0` is only for positions past the end. -/
def nearestRank (xs : List ℚ) (p : ℚ) : ℚ :=
  let s := sortFloat64s xs
  let index := (⌊(xs.length : ℚ) * p⌋).toNat
  if index = 0 then s.getD 0 0 else s.getD (index - 1) 0

/-- The program up to the report: `prepare`, then `RunConcPool` on the initial ledger. -/
def main (Cities : List City) (countryCode : String) (runs : Int)
    (events : Nat → UnitEvents) : Except Panic Ledger :=
  RunConcPool (prepare Cities countryCode) runs events emptyLedger

/-- The latencies `1, 2, ..., 21`. -/
def oneTo21 : List ℚ :=
  [1, 2, 3, 4, 5, 6, 7, 8, 9, 10, 11, 12, 13, 14, 15, 16, 17, 18, 19, 20, 21]

/-- The ten values `10, 20, ..., 100` in ascending order. -/
def tenToHundred : List ℚ := [10, 20, 30, 40, 50, 60, 70, 80, 90, 100]

/-- The ledger after `k` recorded requests, as far as the counters go: the three counters are
non-negative and add up to `k`, every key allocated at start is still there, and no per-status
count exceeds `failed`. -/
structure Ledger.Counted (L : Ledger) (k : Nat) : Prop where
  ok_nonneg : 0 ≤ L.ok
  failed_nonneg : 0 ≤ L.failed
  reqFailed_nonneg : 0 ≤ L.reqFailed
  total : L.ok + L.failed + L.reqFailed = k
  allocated : ∀ i : Int, 0 ≤ i → i < 600 → ∃ count, L.failedStatusCode i = some count
  counts : ∀ (i : Int) (count : Int), L.failedStatusCode i = some count →
    0 ≤ count ∧ count ≤ L.failed

/-- The ledger after `k` responses with status 503 and nothing else. -/
structure Ledger.Only503 (L : Ledger) (k : Nat) : Prop where
  ok : L.ok = 0
  reqFailed : L.reqFailed = 0
  failed : L.failed = k
  count503 : L.failedStatusCode 503 = some (k : Int)
  others : ∀ i : Int, i ≠ 503 →
    L.failedStatusCode i = if 0 ≤ i ∧ i < 600 then some 0 else none

/-- A dataset of one city, in the United States. -/
def oneCity : List City := [⟨"US", "40.7128", "-74.0060"⟩]

/-- Events of a unit whose request would succeed with status 200. -/
def okEvents : Nat → UnitEvents := fun _ => ⟨0, .resp 200, 1⟩

/-! ## Rounding lemmas -/

theorem dropBits_spec (fuel N : Nat) :
    dropBits fuel N = 0 ∨ 2 ^ (52 + dropBits fuel N) ≤ N := by
  induction fuel generalizing N with
  | zero => left; rfl
  | succ fuel ih =>
    by_cases h : N < 2 ^ 53
    · left
      unfold dropBits
      rw [if_pos h]
    · right
      have hs : dropBits (fuel + 1) N = dropBits fuel (N / 2) + 1 := by
        conv_lhs => unfold dropBits
        rw [if_neg h]
      rw [hs]
      rcases ih (N / 2) with h0 | h1
      · rw [h0]; omega
      · have h2 : 2 ^ (52 + (dropBits fuel (N / 2) + 1))
            = 2 ^ (52 + dropBits fuel (N / 2)) * 2 := by
          rw [← Nat.add_assoc, Nat.pow_succ]
        rw [h2]; omega

/-- Rounding to 53 bits raises a number by at most the fraction `2 ^ (-53)` of itself. -/
theorem roundTo53_le (N : Nat) : roundTo53 N * 2 ^ 53 ≤ N * (2 ^ 53 + 1) := by
  unfold roundTo53
  dsimp only
  rcases dropBits_spec N N with h0 | h1
  · rw [h0]
    simp only [Nat.pow_zero, Nat.mod_one, Nat.div_one, Nat.mul_one]
    rw [if_neg (by omega)]
    omega
  · generalize dropBits N N = s at h1
    have hpow : 2 ^ (52 + s) = 2 ^ 52 * 2 ^ s := Nat.pow_add 2 52 s
    rw [hpow] at h1
    have hdm : 2 ^ s * (N / 2 ^ s) + N % 2 ^ s = N := Nat.div_add_mod N (2 ^ s)
    have hcomm : N / 2 ^ s * 2 ^ s = 2 ^ s * (N / 2 ^ s) := Nat.mul_comm _ _
    generalize 2 ^ s = P at h1 hdm hcomm
    generalize N % P = r at hdm
    split
    · rename_i hup
      have hr : P ≤ 2 * r := by rcases hup with h | ⟨h, _⟩ <;> omega
      rw [Nat.add_mul, hcomm, Nat.one_mul]
      generalize P * (N / P) = A at hdm
      omega
    · rw [hcomm]
      generalize P * (N / P) = A at hdm
      omega

/-- The index computed by `calculateP` never exceeds the length. -/
theorem index99_le (n : Nat) : index99 n ≤ n := by
  unfold index99
  apply Nat.div_le_of_le_mul
  have h1 := roundTo53_le (roundTo53 n * mant099)
  have h2 := roundTo53_le n
  unfold mant099 at h1 ⊢
  generalize roundTo53 (roundTo53 n * 8917127262193582) = X at h1 ⊢
  generalize roundTo53 n = a at h1 h2
  omega

theorem index99_pred_lt (n : Nat) (hn : 0 < n) : index99 n - 1 < n := by
  have := index99_le n
  omega

/-! ## Sorting and `calculateP` -/

theorem sortFloat64s_length (numbers : List ℚ) :
    (sortFloat64s numbers).length = numbers.length :=
  List.length_insertionSort _ numbers

theorem sortFloat64s_sorted (numbers : List ℚ) :
    List.Sorted (· ≤ ·) (sortFloat64s numbers) :=
  List.sorted_insertionSort _ numbers

theorem sortFloat64s_perm (numbers : List ℚ) : (sortFloat64s numbers).Perm numbers :=
  List.perm_insertionSort _ numbers

/-- Sorting a permutation of an ascending list yields that list. -/
theorem sortFloat64s_eq_of_perm {numbers s : List ℚ} (hp : numbers.Perm s)
    (hs : List.Sorted (· ≤ ·) s) : sortFloat64s numbers = s :=
  List.eq_of_perm_of_sorted ((sortFloat64s_perm numbers).trans hp)
    (sortFloat64s_sorted numbers) hs

theorem sortFloat64s_idem (numbers : List ℚ) :
    sortFloat64s (sortFloat64s numbers) = sortFloat64s numbers :=
  (sortFloat64s_sorted numbers).insertionSort_eq

theorem indexSlice_of_lt (numbers : List ℚ) (i : Nat) (h : i < numbers.length) :
    indexSlice numbers i = .ok (numbers.getD i 0) := by
  unfold indexSlice
  rw [List.getElem?_eq_getElem h, List.getD_eq_getElem _ _ h]

/-- On a non-empty slice `calculateP` returns, for whatever `rate`, the element of the sorted
slice at position `index99 len - 1` (position `0` when the index is `0`), and leaves the
slice sorted. -/
theorem calculateP_of_ne_nil (numbers : List ℚ) (rate : ℚ) (h : numbers ≠ []) :
    calculateP numbers rate
      = .ok ((sortFloat64s numbers).getD (index99 numbers.length - 1) 0,
          sortFloat64s numbers) := by
  have hlen : 0 < numbers.length := List.length_pos.mpr h
  have hne : ¬ numbers.length = 0 := by omega
  unfold calculateP
  rw [if_neg hne]
  dsimp only
  rw [sortFloat64s_length]
  by_cases h0 : index99 numbers.length = 0
  · rw [if_pos h0, h0, indexSlice_of_lt _ 0 (by rw [sortFloat64s_length]; exact hlen)]
    rfl
  · rw [if_neg h0, indexSlice_of_lt _ _
      (by rw [sortFloat64s_length]; exact index99_pred_lt _ hlen)]
    rfl

/-! ## Lemmas on the ledger -/

theorem atomicAddInt64_one (x : Int) (h : Int64BelowMax x) : atomicAddInt64 x 1 = x + 1 := by
  unfold Int64BelowMax maxInt64 at h
  unfold atomicAddInt64 wrapInt64
  omega

theorem emptyLedger_recordable : emptyLedger.Recordable where
  ok := by simp [emptyLedger, Int64BelowMax, maxInt64]
  failed := by simp [emptyLedger, Int64BelowMax, maxInt64]
  reqFailed := by simp [emptyLedger, Int64BelowMax, maxInt64]
  allocated := by
    intro i h0 h1
    exact ⟨0, by simp [emptyLedger, h0, h1]⟩
  counts := by
    intro i count h
    simp only [emptyLedger] at h
    split at h
    · cases h
      simp [Int64BelowMax, maxInt64]
    · cases h

theorem Req_err (L : Ledger) (d : ℚ) :
    Req L .err d = .ok { L with
      reqFailed := atomicAddInt64 L.reqFailed 1
      reqfailedlatency := L.reqfailedlatency ++ [d] } := rfl

theorem Req_resp200 (L : Ledger) (d : ℚ) :
    Req L (.resp 200) d = .ok { L with
      ok := atomicAddInt64 L.ok 1
      oklatency := L.oklatency ++ [d] } := by
  simp [Req]

theorem Req_resp_failed (L : Ledger) (c count : Int) (d : ℚ) (hc : c ≠ 200)
    (hcount : L.failedStatusCode c = some count) :
    Req L (.resp c) d = .ok { L with
      failed := atomicAddInt64 L.failed 1
      failedStatusCode := Function.update L.failedStatusCode c (some (atomicAddInt64 count 1))
      failedlatency := L.failedlatency ++ [d] } := by
  simp [Req, hc, hcount]

theorem Req_resp_nil (L : Ledger) (c : Int) (d : ℚ) (hc : c ≠ 200)
    (hnil : L.failedStatusCode c = none) :
    Req L (.resp c) d = .error .nilPointerDereference := by
  simp [Req, hc, hnil]

theorem emptyLedger_counted : emptyLedger.Counted 0 where
  ok_nonneg := by simp [emptyLedger]
  failed_nonneg := by simp [emptyLedger]
  reqFailed_nonneg := by simp [emptyLedger]
  total := by simp [emptyLedger]
  allocated := emptyLedger_recordable.allocated
  counts := by
    intro i count h
    simp only [emptyLedger] at h
    split at h
    · cases h
      simp [emptyLedger]
    · cases h

theorem Ledger.Counted.recordable {L : Ledger} {k : Nat} (h : L.Counted k)
    (hk : k + 1 < 2 ^ 63) : L.Recordable := by
  have h1 := h.ok_nonneg
  have h2 := h.failed_nonneg
  have h3 := h.reqFailed_nonneg
  have h4 := h.total
  have hk2 : ((k : Nat) : Int) + 1 < 2 ^ 63 := by exact_mod_cast hk
  refine ⟨?_, ?_, ?_, h.allocated, ?_⟩
  · unfold Int64BelowMax maxInt64; omega
  · unfold Int64BelowMax maxInt64; omega
  · unfold Int64BelowMax maxInt64; omega
  · intro i count hc
    have := h.counts i count hc
    unfold Int64BelowMax maxInt64; omega

/-- One recording step keeps the counters adding up. -/
theorem Req_counted (L : Ledger) (k : Nat) (h : L.Counted k) (hk : k + 1 < 2 ^ 63)
    (r : DoResult) (d : ℚ) (hr : ∀ c, r = .resp c → 0 ≤ c ∧ c < 600) :
    ∃ L1, Req L r d = .ok L1 ∧ L1.Counted (k + 1) := by
  have hR := h.recordable hk
  have h4 := h.total
  cases r with
  | err =>
    refine ⟨_, Req_err L d, ?_⟩
    have e := atomicAddInt64_one _ hR.reqFailed
    refine ⟨h.ok_nonneg, h.failed_nonneg, ?_, ?_, h.allocated, h.counts⟩
    · show 0 ≤ atomicAddInt64 L.reqFailed 1
      rw [e]; have := h.reqFailed_nonneg; omega
    · show L.ok + L.failed + atomicAddInt64 L.reqFailed 1 = ((k + 1 : Nat) : Int)
      rw [e]; push_cast; omega
  | resp c =>
    by_cases hc : c = 200
    · subst hc
      refine ⟨_, Req_resp200 L d, ?_⟩
      have e := atomicAddInt64_one _ hR.ok
      refine ⟨?_, h.failed_nonneg, h.reqFailed_nonneg, ?_, h.allocated, h.counts⟩
      · show 0 ≤ atomicAddInt64 L.ok 1
        rw [e]; have := h.ok_nonneg; omega
      · show atomicAddInt64 L.ok 1 + L.failed + L.reqFailed = ((k + 1 : Nat) : Int)
        rw [e]; push_cast; omega
    · obtain ⟨hc0, hc1⟩ := hr c rfl
      obtain ⟨count, hcount⟩ := h.allocated c hc0 hc1
      refine ⟨_, Req_resp_failed L c count d hc hcount, ?_⟩
      have e := atomicAddInt64_one _ hR.failed
      have e2 := atomicAddInt64_one _ (hR.counts c count hcount)
      have hcb := h.counts c count hcount
      have hf := h.failed_nonneg
      refine ⟨h.ok_nonneg, ?_, h.reqFailed_nonneg, ?_, ?_, ?_⟩
      · show 0 ≤ atomicAddInt64 L.failed 1
        rw [e]; omega
      · show L.ok + atomicAddInt64 L.failed 1 + L.reqFailed = ((k + 1 : Nat) : Int)
        rw [e]; push_cast; omega
      · intro i hi0 hi1
        show ∃ count1, Function.update L.failedStatusCode c
          (some (atomicAddInt64 count 1)) i = some count1
        by_cases hic : i = c
        · subst hic
          exact ⟨_, Function.update_same _ _ _⟩
        · rw [Function.update_noteq hic]
          exact h.allocated i hi0 hi1
      · intro i count1 hi
        show 0 ≤ count1 ∧ count1 ≤ atomicAddInt64 L.failed 1
        rw [e]
        have hi2 : Function.update L.failedStatusCode c
          (some (atomicAddInt64 count 1)) i = some count1 := hi
        by_cases hic : i = c
        · subst hic
          rw [Function.update_same, e2] at hi2
          cases hi2
          omega
        · rw [Function.update_noteq hic] at hi2
          have := h.counts i count1 hi2
          omega

/-- Recording a whole sequence of results keeps the counters adding up. -/
theorem ReqAll_counted (rs : List (DoResult × ℚ)) (L : Ledger) (k : Nat) (h : L.Counted k)
    (hk : k + rs.length < 2 ^ 63)
    (hr : ∀ c d, (DoResult.resp c, d) ∈ rs → 0 ≤ c ∧ c < 600) :
    ∃ L1, ReqAll L rs = .ok L1 ∧ L1.Counted (k + rs.length) := by
  induction rs generalizing L k with
  | nil => exact ⟨L, rfl, h⟩
  | cons p rest ih =>
    obtain ⟨r, d⟩ := p
    have hlen : (((r, d) :: rest).length) = rest.length + 1 := rfl
    rw [hlen] at hk ⊢
    obtain ⟨L1, hL1, hC1⟩ := Req_counted L k h (by omega) r d (by
      intro c hc
      subst hc
      exact hr c d (List.mem_cons_self _ _))
    obtain ⟨L2, hL2, hC2⟩ := ih L1 (k + 1) hC1 (by omega) (by
      intro c d1 hmem
      exact hr c d1 (List.mem_cons_of_mem _ hmem))
    refine ⟨L2, ?_, ?_⟩
    · unfold ReqAll
      rw [hL1]
      exact hL2
    · have e : k + (rest.length + 1) = k + 1 + rest.length := by omega
      rw [e]
      exact hC2

theorem emptyLedger_only503 : emptyLedger.Only503 0 where
  ok := rfl
  reqFailed := rfl
  failed := rfl
  count503 := by simp [emptyLedger]
  others := fun _ _ => rfl

/-- One more 503 response on a ledger that has seen only 503 responses. -/
theorem Req_only503 (L : Ledger) (k : Nat) (h : L.Only503 k) (hk : k + 1 < 2 ^ 63) (d : ℚ) :
    ∃ L1, Req L (.resp 503) d = .ok L1 ∧ L1.Only503 (k + 1) := by
  have hk2 : ((k : Nat) : Int) + 1 < 2 ^ 63 := by exact_mod_cast hk
  have hb : Int64BelowMax (k : Int) := by
    unfold Int64BelowMax maxInt64; omega
  have e := atomicAddInt64_one _ hb
  refine ⟨_, Req_resp_failed L 503 k d (by decide) h.count503, ?_⟩
  refine ⟨h.ok, h.reqFailed, ?_, ?_, ?_⟩
  · show atomicAddInt64 L.failed 1 = ((k + 1 : Nat) : Int)
    rw [h.failed, e]; push_cast; rfl
  · show Function.update L.failedStatusCode 503 (some (atomicAddInt64 (k : Int) 1)) 503
      = some ((k + 1 : Nat) : Int)
    rw [Function.update_same, e]; push_cast; rfl
  · intro i hi
    show Function.update L.failedStatusCode 503 (some (atomicAddInt64 (k : Int) 1)) i = _
    rw [Function.update_noteq hi]
    exact h.others i hi

theorem ReqAll_only503 (rs : List (DoResult × ℚ)) (L : Ledger) (k : Nat) (h : L.Only503 k)
    (hk : k + rs.length < 2 ^ 63) (hr : ∀ p ∈ rs, p.1 = DoResult.resp 503) :
    ∃ L1, ReqAll L rs = .ok L1 ∧ L1.Only503 (k + rs.length) := by
  induction rs generalizing L k with
  | nil => exact ⟨L, rfl, h⟩
  | cons p rest ih =>
    obtain ⟨r, d⟩ := p
    have hr0 : r = DoResult.resp 503 := hr (r, d) (List.mem_cons_self _ _)
    subst hr0
    have hlen : (((DoResult.resp 503, d) :: rest).length) = rest.length + 1 := rfl
    rw [hlen] at hk ⊢
    obtain ⟨L1, hL1, hC1⟩ := Req_only503 L k h (by omega) d
    obtain ⟨L2, hL2, hC2⟩ := ih L1 (k + 1) hC1 (by omega)
      (fun p hp => hr p (List.mem_cons_of_mem _ hp))
    refine ⟨L2, ?_, ?_⟩
    · unfold ReqAll
      rw [hL1]
      exact hL2
    · have e : k + (rest.length + 1) = k + 1 + rest.length := by omega
      rw [e]
      exact hC2

theorem runUnits_nil_cities (events : Nat → UnitEvents) (i todo : Nat) (L : Ledger) :
    runUnits [] events i (todo + 1) L = .error .intnInvalidArgument := rfl

/-- The result of `calculateP` does not depend on `rate`. -/
theorem calculateP_rate_irrelevant (numbers : List ℚ) (rate1 rate2 : ℚ) :
    calculateP numbers rate1 = calculateP numbers rate2 := rfl

/-! ## Claims on the statistics -/

/-- C1, evaluated at the 21 latencies `1..21` with rate `0.95`: `calculateP` returns `20`,
the element at position `floor(21 * 0.99) - 1 = 19` of the sorted slice, while the
nearest-rank percentile for `0.95` is the element at position `floor(21 * 0.95) - 1 = 18`,
which is `19`. -/
theorem calculateP_rate95_oneTo21 :
    calculateP oneTo21 (95 / 100) = .ok (20, oneTo21) ∧ nearestRank oneTo21 (95 / 100) = 19 := by
  have hsorted : sortFloat64s oneTo21 = oneTo21 :=
    sortFloat64s_eq_of_perm (List.Perm.refl _) (by unfold oneTo21; simp; norm_num)
  constructor
  · rw [calculateP_of_ne_nil _ _ (by simp [oneTo21]), hsorted]
    have hi : index99 oneTo21.length = 20 := by decide
    rw [hi]
    rfl
  · unfold nearestRank
    rw [hsorted]
    have hfloor : ⌊((oneTo21.length : ℕ) : ℚ) * (95 / 100)⌋ = 19 := by
      rw [Int.floor_eq_iff]
      simp only [oneTo21, List.length_cons, List.length_nil]
      norm_num
    rw [hfloor]
    rfl

/-- C7: for every ordering of the ten values `10, 20, ..., 100`, `calculateP` with rate `0.99`
returns `90`, the element at position 8 of the ascending sort, and leaves the slice sorted. -/
theorem calculateP_p99_tenToHundred (l : List ℚ) (h : l.Perm tenToHundred) :
    calculateP l (99 / 100) = .ok (90, tenToHundred) := by
  have hsorted : sortFloat64s l = tenToHundred :=
    sortFloat64s_eq_of_perm h (by unfold tenToHundred; simp; norm_num)
  have hlen : l.length = 10 := by rw [h.length_eq]; rfl
  have hne : l ≠ [] := by
    intro hnil
    rw [hnil] at hlen
    simp at hlen
  rw [calculateP_of_ne_nil _ _ hne, hsorted, hlen]
  have hi : index99 10 = 9 := by decide
  rw [hi]
  rfl

theorem calculateP_p99_tenToHundred_witness :
    ([100, 30, 50, 10, 90, 20, 70, 40, 80, 60] : List ℚ).Perm tenToHundred
      ∧ calculateP [100, 30, 50, 10, 90, 20, 70, 40, 80, 60] (99 / 100)
          = .ok (90, tenToHundred) :=
  ⟨by decide, calculateP_p99_tenToHundred _ (by decide)⟩

/-- C8: for every non-empty latency slice the reporter succeeds, and the value it computes as
P99, `calculateP(x, 0.99)`, is at least the value it computes as P95, `calculateP(x, 0.95)`,
whether the second call sees the original slice or the slice as sorted by the first call. -/
theorem p99_ge_p95 (x : List ℚ) (hx : x ≠ []) :
    ∃ p99 p95 s, calculateP x (99 / 100) = .ok (p99, s)
      ∧ calculateP x (95 / 100) = .ok (p95, s)
      ∧ calculateP s (95 / 100) = .ok (p95, s)
      ∧ ReportLatencyHistogram x = .ok (p99, p95, mean s)
      ∧ p95 ≤ p99 := by
  have hs : sortFloat64s x ≠ [] := by
    intro hnil
    have := sortFloat64s_length x
    rw [hnil] at this
    exact hx (List.length_eq_zero.mp this.symm)
  have h2 : calculateP (sortFloat64s x) (95 / 100)
      = .ok ((sortFloat64s x).getD (index99 x.length - 1) 0, sortFloat64s x) := by
    rw [calculateP_of_ne_nil _ _ hs, sortFloat64s_idem, sortFloat64s_length]
  refine ⟨_, _, _, calculateP_of_ne_nil x _ hx, calculateP_of_ne_nil x _ hx, h2, ?_, le_refl _⟩
  unfold ReportLatencyHistogram
  rw [calculateP_of_ne_nil x _ hx]
  dsimp only
  rw [h2]

theorem p99_ge_p95_witness :
    ([3, 1, 2] : List ℚ) ≠ [] ∧
    ∃ p99 p95 s, calculateP [3, 1, 2] (99 / 100) = .ok (p99, s)
      ∧ calculateP [3, 1, 2] (95 / 100) = .ok (p95, s)
      ∧ calculateP s (95 / 100) = .ok (p95, s)
      ∧ ReportLatencyHistogram [3, 1, 2] = .ok (p99, p95, mean s)
      ∧ p95 ≤ p99 :=
  ⟨by simp, p99_ge_p95 [3, 1, 2] (by simp)⟩

/-- C10: on the empty slice `mean` returns `0` without dividing and `calculateP` returns `0`
for every rate without indexing, leaving the slice empty. -/
theorem empty_sequence_safe :
    mean [] = some 0 ∧ ∀ rate : ℚ, calculateP [] rate = .ok (0, []) :=
  ⟨rfl, fun _ => rfl⟩

/-! ## Claims on the ledger -/

/-- C2: starting from the empty ledger, recording `N` request results in sequence (each a
transport error or a response with a status code in `0..599`; `N` below `2 ^ 63`, as a run
count held in a Go `int` is) succeeds and leaves `ok + failed + reqFailed = N`. -/
theorem ReqAll_total (rs : List (DoResult × ℚ)) (hN : rs.length < 2 ^ 63)
    (hr : ∀ c d, (DoResult.resp c, d) ∈ rs → 0 ≤ c ∧ c < 600) :
    ∃ L, ReqAll emptyLedger rs = .ok L ∧ L.ok + L.failed + L.reqFailed = rs.length := by
  obtain ⟨L, hL, hC⟩ := ReqAll_counted rs emptyLedger 0 emptyLedger_counted (by omega) hr
  refine ⟨L, hL, ?_⟩
  have := hC.total
  rw [this]
  simp

theorem ReqAll_total_witness :
    ∃ L, ReqAll emptyLedger [(.resp 200, 5), (.err, 7), (.resp 404, 3), (.resp 204, 2)] = .ok L
      ∧ L.ok + L.failed + L.reqFailed
          = ([(DoResult.resp 200, (5 : ℚ)), (.err, 7), (.resp 404, 3), (.resp 204, 2)]).length :=
  ReqAll_total [(.resp 200, 5), (.err, 7), (.resp 404, 3), (.resp 204, 2)] (by simp) (by
    intro c d h
    simp at h
    omega)

/-- C3, counterexample: a response with status 204, which is a 2xx code, is recorded on the
empty ledger as an HTTP failure and not as a success. -/
theorem Req_204_counted_as_failure :
    (200 : Int) ≤ 204 ∧ (204 : Int) ≤ 299 ∧
    ∃ L, Req emptyLedger (.resp 204) 7 = .ok L ∧ L.ok = 0 ∧ L.oklatency = [] ∧
      L.failed = 1 ∧ L.failedStatusCode 204 = some 1 ∧ L.failedlatency = [7] := by
  refine ⟨by decide, by decide, _, Req_resp_failed emptyLedger 204 0 7 (by decide)
    (by simp [emptyLedger]), rfl, rfl, ?_, ?_, rfl⟩
  · show atomicAddInt64 0 1 = 1
    decide
  · show Function.update emptyLedger.failedStatusCode 204 (some (atomicAddInt64 0 1)) 204 = some 1
    rw [Function.update_same]
    decide

/-- C3, amended: a response received without transport error, with a status code in `0..599`,
is recorded as an HTTP failure (`failed` and the count of its code go up by one, the latency is
appended to `failedlatency`) if and only if its status code is not 200, and as a success (`ok`
goes up by one, the latency is appended to `oklatency`) if and only if its status code is
200. -/
theorem Req_failure_iff_not_200 (L : Ledger) (hL : L.Recordable) (c : Int) (d : ℚ)
    (h0 : 0 ≤ c) (h1 : c < 600) :
    ∃ L1, Req L (.resp c) d = .ok L1 ∧
      ((L1.failed = L.failed + 1
          ∧ (∃ count, L.failedStatusCode c = some count
              ∧ L1.failedStatusCode c = some (count + 1))
          ∧ L1.failedlatency = L.failedlatency ++ [d]) ↔ c ≠ 200) ∧
      ((L1.ok = L.ok + 1 ∧ L1.oklatency = L.oklatency ++ [d]) ↔ c = 200) := by
  by_cases hc : c = 200
  · subst hc
    refine ⟨_, Req_resp200 L d, ?_, ?_⟩
    · constructor
      · rintro ⟨hf, -, -⟩
        have hf2 : L.failed = L.failed + 1 := hf
        omega
      · intro h; exact absurd rfl h
    · constructor
      · intro _; rfl
      · intro _
        exact ⟨atomicAddInt64_one _ hL.ok, rfl⟩
  · obtain ⟨count, hcount⟩ := hL.allocated c h0 h1
    refine ⟨_, Req_resp_failed L c count d hc hcount, ?_, ?_⟩
    · constructor
      · intro _; exact hc
      · intro _
        refine ⟨atomicAddInt64_one _ hL.failed, ⟨count, hcount, ?_⟩, rfl⟩
        show Function.update L.failedStatusCode c (some (atomicAddInt64 count 1)) c = _
        rw [Function.update_same, atomicAddInt64_one _ (hL.counts c count hcount)]
    · constructor
      · rintro ⟨ho, -⟩
        have ho2 : L.ok = L.ok + 1 := ho
        omega
      · intro h; exact absurd h hc

theorem Req_failure_iff_not_200_witness :
    ∃ L1, Req emptyLedger (.resp 204) 7 = .ok L1 ∧
      ((L1.failed = emptyLedger.failed + 1
          ∧ (∃ count, emptyLedger.failedStatusCode 204 = some count
              ∧ L1.failedStatusCode 204 = some (count + 1))
          ∧ L1.failedlatency = emptyLedger.failedlatency ++ [7]) ↔ (204 : Int) ≠ 200) ∧
      ((L1.ok = emptyLedger.ok + 1 ∧ L1.oklatency = emptyLedger.oklatency ++ [7])
        ↔ (204 : Int) = 200) :=
  Req_failure_iff_not_200 emptyLedger emptyLedger_recordable 204 7 (by decide) (by decide)

/-- C4: in every recordable ledger state, recording one outcome with latency `d` (a transport
error, or a response with status code `c` in `0..599`) succeeds, appends `d` at the end of the
one matching bucket and raises the matching counter by one, and leaves the other two buckets
and the other two counters as they were. The per-status table changes only for an HTTP failure
(`c` other than 200): the entry for `c` grows by one and every other entry is unchanged. -/
theorem Req_frame (L : Ledger) (hL : L.Recordable) (r : DoResult) (d : ℚ)
    (hr : ∀ c, r = .resp c → 0 ≤ c ∧ c < 600) :
    ∃ L1, Req L r d = .ok L1 ∧
      (r = .err →
        L1.reqfailedlatency = L.reqfailedlatency ++ [d] ∧ L1.reqFailed = L.reqFailed + 1 ∧
        L1.oklatency = L.oklatency ∧ L1.failedlatency = L.failedlatency ∧
        L1.ok = L.ok ∧ L1.failed = L.failed ∧
        L1.failedStatusCode = L.failedStatusCode) ∧
      (r = .resp 200 →
        L1.oklatency = L.oklatency ++ [d] ∧ L1.ok = L.ok + 1 ∧
        L1.failedlatency = L.failedlatency ∧ L1.reqfailedlatency = L.reqfailedlatency ∧
        L1.failed = L.failed ∧ L1.reqFailed = L.reqFailed ∧
        L1.failedStatusCode = L.failedStatusCode) ∧
      (∀ c, r = .resp c → c ≠ 200 →
        L1.failedlatency = L.failedlatency ++ [d] ∧ L1.failed = L.failed + 1 ∧
        L1.oklatency = L.oklatency ∧ L1.reqfailedlatency = L.reqfailedlatency ∧
        L1.ok = L.ok ∧ L1.reqFailed = L.reqFailed ∧
        (∃ count, L.failedStatusCode c = some count
          ∧ L1.failedStatusCode c = some (count + 1)) ∧
        ∀ i, i ≠ c → L1.failedStatusCode i = L.failedStatusCode i) := by
  cases r with
  | err =>
    refine ⟨_, Req_err L d, ?_, ?_, ?_⟩
    · intro _
      exact ⟨rfl, atomicAddInt64_one _ hL.reqFailed, rfl, rfl, rfl, rfl, rfl⟩
    · intro h; cases h
    · intro c h; cases h
  | resp c =>
    by_cases hc : c = 200
    · subst hc
      refine ⟨_, Req_resp200 L d, ?_, ?_, ?_⟩
      · intro h; cases h
      · intro _
        exact ⟨rfl, atomicAddInt64_one _ hL.ok, rfl, rfl, rfl, rfl, rfl⟩
      · intro c h hne
        cases h
        exact absurd rfl hne
    · obtain ⟨hc0, hc1⟩ := hr c rfl
      obtain ⟨count, hcount⟩ := hL.allocated c hc0 hc1
      refine ⟨_, Req_resp_failed L c count d hc hcount, ?_, ?_, ?_⟩
      · intro h; cases h
      · intro h
        cases h
        exact absurd rfl hc
      · intro c1 h _
        cases h
        refine ⟨rfl, atomicAddInt64_one _ hL.failed, rfl, rfl, rfl, rfl,
          ⟨count, hcount, ?_⟩, ?_⟩
        · show Function.update L.failedStatusCode c (some (atomicAddInt64 count 1)) c = _
          rw [Function.update_same, atomicAddInt64_one _ (hL.counts c count hcount)]
        · intro i hi
          exact Function.update_noteq hi _ _

theorem Req_frame_witness :
    ∃ L1, Req emptyLedger (.resp 503) 9 = .ok L1 ∧
      L1.failedlatency = emptyLedger.failedlatency ++ [9] ∧
      L1.failed = emptyLedger.failed + 1 ∧ L1.ok = emptyLedger.ok ∧
      L1.reqFailed = emptyLedger.reqFailed := by
  obtain ⟨L1, h, -, -, h3⟩ := Req_frame emptyLedger emptyLedger_recordable (.resp 503) 9 (by
    intro c hc
    cases hc
    exact ⟨by decide, by decide⟩)
  obtain ⟨a, b, -, -, e, f, -, -⟩ := h3 503 rfl (by decide)
  exact ⟨L1, h, a, b, e, f⟩

/-- C5, evaluated at status code 999 on the empty ledger: the lookup in `failedStatusCode`
finds no key, the add goes through the nil pointer, and the recording panics; no count for
999 is raised. -/
theorem Req_999_panics :
    emptyLedger.failedStatusCode 999 = none ∧
    Req emptyLedger (.resp 999) 4 = .error .nilPointerDereference :=
  ⟨by simp [emptyLedger], Req_resp_nil emptyLedger 999 4 (by decide) (by simp [emptyLedger])⟩

/-- C9: starting from the empty ledger, if each of the `N` recorded results (`N` below
`2 ^ 63`) is a response with status 503, then recording succeeds and leaves `failed = N`, the
count for 503 equal to `N`, `ok = 0`, `reqFailed = 0` and every other allocated status code
with count `0` (codes outside `0..599` have no entry). -/
theorem ReqAll_all_503 (rs : List (DoResult × ℚ)) (hN : rs.length < 2 ^ 63)
    (hr : ∀ p ∈ rs, p.1 = DoResult.resp 503) :
    ∃ L, ReqAll emptyLedger rs = .ok L ∧ L.failed = rs.length ∧
      L.failedStatusCode 503 = some (rs.length : Int) ∧ L.ok = 0 ∧ L.reqFailed = 0 ∧
      (∀ i : Int, i ≠ 503 → 0 ≤ i → i < 600 → L.failedStatusCode i = some 0) ∧
      (∀ i : Int, ¬ (0 ≤ i ∧ i < 600) → L.failedStatusCode i = none) := by
  obtain ⟨L, hL, hC⟩ := ReqAll_only503 rs emptyLedger 0 emptyLedger_only503 (by omega) hr
  rw [Nat.zero_add] at hC
  refine ⟨L, hL, hC.failed, hC.count503, hC.ok, hC.reqFailed, ?_, ?_⟩
  · intro i hi h0 h1
    rw [hC.others i hi, if_pos ⟨h0, h1⟩]
  · intro i hi
    have hne : i ≠ 503 := by
      intro h
      apply hi
      omega
    rw [hC.others i hne, if_neg hi]

theorem ReqAll_all_503_witness :
    ∃ L, ReqAll emptyLedger [(.resp 503, 1), (.resp 503, 2), (.resp 503, 3)] = .ok L ∧
      L.failed = ([(DoResult.resp 503, (1 : ℚ)), (.resp 503, 2), (.resp 503, 3)]).length ∧
      L.failedStatusCode 503
        = some (([(DoResult.resp 503, (1 : ℚ)), (.resp 503, 2), (.resp 503, 3)]).length : Int) ∧
      L.ok = 0 ∧ L.reqFailed = 0 ∧
      (∀ i : Int, i ≠ 503 → 0 ≤ i → i < 600 → L.failedStatusCode i = some 0) ∧
      (∀ i : Int, ¬ (0 ≤ i ∧ i < 600) → L.failedStatusCode i = none) :=
  ReqAll_all_503 [(.resp 503, 1), (.resp 503, 2), (.resp 503, 3)] (by simp) (by simp)

/-! ## Claims on startup -/

/-- C6, evaluated at a dataset of one US city with the filter `"XX"` and `runs = 1`: no city
matches, `prepare` ends normally and leaves the working set empty, and the run ends in the
panic of `rand.Intn(0)`, raised by the first dispatched unit; no error is reported before
dispatch. -/
theorem empty_set_found_by_unit :
    (∀ city ∈ oneCity, city.Country ≠ "XX") ∧ prepare oneCity "XX" = [] ∧
    main oneCity "XX" 1 okEvents = .error .intnInvalidArgument := by
  refine ⟨by decide, by decide, ?_⟩
  have h : prepare oneCity "XX" = [] := by decide
  unfold main RunConcPool
  rw [h]
  rfl

end GeoApiBenchmark
